import Mathlib

/-!
Verification of the yatisql-go streaming import pipeline.

This file gives a shallow embedding, in Lean 4, of the parts of the
repository `yatisql/yatisql-go` that the verified claims are about:

* `internal/database/sanitize.go` — `SanitizeColumnName`;
* `internal/database/table.go` — `CreateTable`, `InsertBatch`,
  `GetTableColumns`, `ValidateColumns`, `CreateIndex`, `CreateIndexes`;
* `internal/importer` (streaming version, the one the CLI calls) —
  `ParseFile`, `WriteToDatabase`, `importFileStreaming`, `ImportConcurrent`.

The relational sink (SQLite) is modelled as an in-memory association list of
tables, with a `SinkOracle` supplying the sink-side failure points that the
Go code checks (statement preparation, per-row insert, commit).  A source
file, as seen through Go's `encoding/csv` reader, is modelled as the list of
records the reader yields followed by the reader's terminal outcome (clean
EOF or a tokenization error).  Progress callbacks only emit events and do not
influence any state; the model omits them and instead returns, where a claim
needs it, the trace of batch sizes handed to `InsertBatch`.

Goroutine fan-out in `ImportConcurrent` is modelled by processing the inputs
sequentially: each worker owns its file and writes to its own table, results
and errors are appended under one mutex in the Go code, and the claims under
verification are about the aggregated outcome, not about interleavings.
-/

/-! ### Column name sanitization (`internal/database/sanitize.go`) -/

/-- Go `unicode.IsSpace`, by code point: the Unicode `White_Space` property.
This is the predicate `strings.TrimSpace` trims by. -/
def goIsSpace (c : Char) : Bool :=
  c.toNat = 0x09 || c.toNat = 0x0A || c.toNat = 0x0B || c.toNat = 0x0C ||
  c.toNat = 0x0D || c.toNat = 0x20 || c.toNat = 0x85 || c.toNat = 0xA0 ||
  c.toNat = 0x1680 || (0x2000 ≤ c.toNat && c.toNat ≤ 0x200A) ||
  c.toNat = 0x2028 || c.toNat = 0x2029 || c.toNat = 0x202F ||
  c.toNat = 0x205F || c.toNat = 0x3000

/-- The character class kept unchanged by `SanitizeColumnName`:
`(r >= 'a' && r <= 'z') || (r >= 'A' && r <= 'Z') || (r >= '0' && r <= '9') || r == '_'`. -/
def isWordChar (c : Char) : Bool :=
  (0x61 ≤ c.toNat && c.toNat ≤ 0x7A) || (0x41 ≤ c.toNat && c.toNat ≤ 0x5A) ||
  (0x30 ≤ c.toNat && c.toNat ≤ 0x39) || c.toNat = 0x5F

/-- `sanitized[0] >= '0' && sanitized[0] <= '9'` (all sanitized output bytes
are ASCII, so the byte test is the code-point test). -/
def isDigitCh (c : Char) : Bool :=
  0x30 ≤ c.toNat && c.toNat ≤ 0x39

/-- Go `strings.TrimSpace`: drop `White_Space` from both ends. -/
def trimSpace (cs : List Char) : List Char :=
  ((cs.dropWhile goIsSpace).reverse.dropWhile goIsSpace).reverse

/-- The body of the sanitizing loop: keep `[A-Za-z0-9_]`, everything else
becomes `'_'`. -/
def replaceInvalid (c : Char) : Char :=
  if isWordChar c then c else '_'

/-- `SanitizeColumnName` on the rune sequence of the input: trim, test for
empty, rewrite each rune, and prefix `col_` when the (necessarily nonempty)
result starts with a digit. -/
def sanitizeChars (cs : List Char) : List Char :=
  if trimSpace cs = [] then "unnamed".data
  else
    match (trimSpace cs).map replaceInvalid with
    | [] => []
    | c :: t => if isDigitCh c then "col_".data ++ c :: t else c :: t

/-- `database.SanitizeColumnName` (sanitize.go, lines 9–30). -/
def SanitizeColumnName (s : String) : String :=
  ⟨sanitizeChars s.data⟩

/-- The sanitization recipe as the specification words it: trim whitespace;
empty → literal `unnamed`; map every character outside `[A-Za-z0-9_]` to
`_`; prefix `col_` when the result starts with a digit. -/
def sanitizeSpecModel (s : String) : String :=
  if trimSpace s.data = [] then "unnamed"
  else if isDigitCh ((trimSpace s.data).map (fun c => if isWordChar c then c else '_')).headI
  then String.mk ("col_".data ++ (trimSpace s.data).map (fun c => if isWordChar c then c else '_'))
  else String.mk ((trimSpace s.data).map (fun c => if isWordChar c then c else '_'))

/-! ### Sanitizer lemmas -/

theorem replaceInvalid_isWord (c : Char) : isWordChar (replaceInvalid c) = true := by
  by_cases h : isWordChar c
  · simp [replaceInvalid, h]
  · rw [replaceInvalid, if_neg h]
    decide

theorem isWordChar_not_space {c : Char} (h : isWordChar c = true) :
    goIsSpace c = false := by
  simp only [isWordChar, Bool.or_eq_true, Bool.and_eq_true, decide_eq_true_eq] at h
  simp only [goIsSpace, Bool.or_eq_false_iff, Bool.and_eq_false_iff,
    decide_eq_false_iff_not]
  omega

theorem dropWhile_eq_self_of_head {p : Char → Bool} :
    ∀ {l : List Char}, (∀ c ∈ l, p c = false) → l.dropWhile p = l
  | [], _ => rfl
  | c :: t, h => by
      have hc : p c = false := h c (List.mem_cons_self c t)
      simp [List.dropWhile, hc]

theorem trimSpace_eq_self {l : List Char} (h : ∀ c ∈ l, goIsSpace c = false) :
    trimSpace l = l := by
  unfold trimSpace
  rw [dropWhile_eq_self_of_head h]
  rw [dropWhile_eq_self_of_head (fun c hc => h c (List.mem_reverse.mp hc))]
  exact List.reverse_reverse l

/-- The shape every sanitizer output has: nonempty, made of word
characters only, and not starting with a digit. -/
def GoodChars (l : List Char) : Prop :=
  l ≠ [] ∧ (∀ c ∈ l, isWordChar c = true) ∧ isDigitCh l.headI = false

theorem map_replaceInvalid_id {l : List Char}
    (h : ∀ c ∈ l, isWordChar c = true) : l.map replaceInvalid = l := by
  induction l with
  | nil => rfl
  | cons c t ih =>
      have hc : replaceInvalid c = c := by
        simp [replaceInvalid, h c (List.mem_cons_self c t)]
      simp only [List.map_cons, hc, List.cons.injEq, true_and]
      exact ih (fun x hx => h x (List.mem_cons_of_mem c hx))

theorem col_data_chars : "col_".data = ['c', 'o', 'l', '_'] := rfl

theorem sanitizeChars_good (cs : List Char) : GoodChars (sanitizeChars cs) := by
  unfold sanitizeChars
  by_cases hempty : trimSpace cs = []
  · simp only [hempty, if_pos rfl]
    exact ⟨by decide, by decide, by decide⟩
  · simp only [if_neg hempty]
    cases hmap : (trimSpace cs).map replaceInvalid with
    | nil =>
        exact absurd (List.map_eq_nil_iff.mp hmap) hempty
    | cons c t =>
        have hword : ∀ x ∈ c :: t, isWordChar x = true := by
          intro x hx
          rw [← hmap] at hx
          obtain ⟨y, _, rfl⟩ := List.mem_map.mp hx
          exact replaceInvalid_isWord y
        show GoodChars (if isDigitCh c = true then "col_".data ++ c :: t else c :: t)
        by_cases hd : isDigitCh c = true
        · rw [if_pos hd, col_data_chars]
          refine ⟨by simp, ?_, rfl⟩
          intro x hx
          rcases List.mem_append.mp hx with hx | hx
          · fin_cases hx <;> decide
          · exact hword x hx
        · rw [if_neg hd]
          have hd' : isDigitCh c = false := Bool.not_eq_true _ ▸ hd
          exact ⟨by simp, hword, hd'⟩

theorem sanitizeChars_fixed {l : List Char} (h : GoodChars l) :
    sanitizeChars l = l := by
  obtain ⟨hne, hword, hhead⟩ := h
  have htrim : trimSpace l = l :=
    trimSpace_eq_self (fun c hc => isWordChar_not_space (hword c hc))
  have hmap : l.map replaceInvalid = l := map_replaceInvalid_id hword
  unfold sanitizeChars
  rw [htrim, hmap, if_neg hne]
  cases l with
  | nil => exact absurd rfl hne
  | cons c t =>
      have hd : isDigitCh c = false := hhead
      show (if isDigitCh c = true then "col_".data ++ c :: t else c :: t) = c :: t
      rw [hd]
      simp

/-- C8: `SanitizeColumnName` computes exactly the recipe the specification
states — trim whitespace; empty input becomes the literal `unnamed`; every
character outside `[A-Za-z0-9_]` becomes `_`; a result starting with a digit
is prefixed with `col_` — and in particular `"User Name"` maps to
`"User_Name"` and `"1col"` maps to `"col_1col"`. -/
theorem sanitize_matches_spec :
    (∀ x : String, SanitizeColumnName x = sanitizeSpecModel x) ∧
    SanitizeColumnName "User Name" = "User_Name" ∧
    SanitizeColumnName "1col" = "col_1col" := by
  refine ⟨?_, by decide, by decide⟩
  intro x
  unfold SanitizeColumnName sanitizeSpecModel sanitizeChars
  by_cases h : trimSpace x.data = []
  · rw [if_pos h, if_pos h]
  · rw [if_neg h, if_neg h]
    cases hmap : (trimSpace x.data).map replaceInvalid with
    | nil => exact absurd (List.map_eq_nil_iff.mp hmap) h
    | cons c t =>
        have hmap' :
            (trimSpace x.data).map (fun c => if isWordChar c then c else '_') = c :: t :=
          hmap
        rw [hmap', show (c :: t).headI = c from rfl]
        show String.mk (if isDigitCh c = true then "col_".data ++ c :: t else c :: t)
           = if isDigitCh c = true
             then String.mk ("col_".data ++ c :: t) else String.mk (c :: t)
        exact apply_ite String.mk _ _ _

/-- C9: sanitization is idempotent — `SanitizeColumnName` applied to its own
output returns that output unchanged (determinism is definitional: it is a
pure function of its argument). -/
theorem sanitize_idempotent :
    ∀ x : String, SanitizeColumnName (SanitizeColumnName x) = SanitizeColumnName x := by
  intro x
  unfold SanitizeColumnName
  exact congrArg String.mk (sanitizeChars_fixed (sanitizeChars_good x.data))

/-! ### The relational sink model (`internal/database/table.go`)

The sink is an association list of named tables.  `SinkOracle` supplies the
sink-side failure answers the Go code branches on (`tx.Prepare`,
`stmt.Exec`, `tx.Commit`); `noFailOracle` is the sink that never fails. -/

abbrev Row := List String

structure Table where
  cols : List String
  rows : List Row
  indexes : List String
  deriving Repr, DecidableEq

abbrev DB := List (String × Table)

def dbLookup (db : DB) (name : String) : Option Table :=
  match db.find? (fun e => e.1 == name) with
  | some e => some e.2
  | none => none

def dbSet (db : DB) (name : String) (t : Table) : DB :=
  match db with
  | [] => [(name, t)]
  | e :: rest => if e.1 == name then (name, t) :: rest else e :: dbSet rest name t

structure SinkOracle where
  prepFail : String → Bool
  execFail : String → Row → Bool
  commitFail : String → Bool

def noFailOracle : SinkOracle :=
  { prepFail := fun _ => false, execFail := fun _ _ => false, commitFail := fun _ => false }

/-- The `values` array built per row in `InsertBatch` (table.go 71–79):
`values[i] = row[i]` when `i < len(row)` and `""` otherwise, for
`i` ranging over the header width — short rows are right-padded with empty
strings, long rows are truncated. -/
def padRow (width : Nat) (row : Row) : Row :=
  (List.range width).map (fun i => row.getD i "")

/-- `database.CreateTable` (table.go 17–35): `DROP TABLE IF EXISTS` then
`CREATE TABLE` with one TEXT column per sanitized header, in header order.
Dropping a SQLite table drops its indexes, so the fresh table has none. -/
def CreateTable (db : DB) (tableName : String) (headers : List String) : DB :=
  dbSet db tableName
    { cols := headers.map SanitizeColumnName, rows := [], indexes := [] }

/-- The per-row `stmt.Exec` loop of `InsertBatch` (table.go 71–84): pad each
row to header width, abort on the first failing exec, otherwise return the
padded rows held pending by the open transaction. -/
def execBatch (o : SinkOracle) (tableName : String) (width : Nat) :
    List Row → Option (List Row)
  | [] => some []
  | r :: rs =>
      if o.execFail tableName (padRow width r) then none
      else (execBatch o tableName width rs).map (padRow width r :: ·)

/-- `database.InsertBatch` (table.go 38–91).  Returns the updated sink, the
error if any, and the number of transactions opened.  The transaction is
modelled by applying the batch to the table only at commit, so any failure
(`defer tx.Rollback()`) leaves the sink exactly as it was.  Preparing an
insert against a missing table fails at `tx.Prepare`. -/
def InsertBatch (o : SinkOracle) (db : DB) (tableName : String)
    (headers : List String) (batch : List Row) : DB × Option String × Nat :=
  if batch.isEmpty then (db, none, 0)
  else
    match dbLookup db tableName with
    | none => (db, some "failed to prepare statement", 1)
    | some t =>
        if o.prepFail tableName then (db, some "failed to prepare statement", 1)
        else
          match execBatch o tableName headers.length batch with
          | none => (db, some "failed to insert row", 1)
          | some vs =>
              if o.commitFail tableName then (db, some "failed to commit transaction", 1)
              else (dbSet db tableName { t with rows := t.rows ++ vs }, none, 1)

/-- `database.GetTableColumns` (table.go 94–118): the catalog query.
`PRAGMA table_info` on an absent table yields zero rows, not an error. -/
def GetTableColumns (db : DB) (tableName : String) : List String :=
  match dbLookup db tableName with
  | some t => t.cols
  | none => []

/-- Go `strings.ToLower` restricted to ASCII; every identifier this pipeline
stores in the catalog is a sanitized ASCII name. -/
def asciiToLower (s : String) : String :=
  ⟨s.data.map (fun c =>
    if 0x41 ≤ c.toNat ∧ c.toNat ≤ 0x5A then Char.ofNat (c.toNat + 32) else c)⟩

/-- Membership test of `ValidateColumns` (table.go 128–140): the sanitized
request is looked up, case-insensitively, in the catalog columns. -/
def catalogHas (db : DB) (tableName : String) (col : String) : Bool :=
  ((GetTableColumns db tableName).map asciiToLower).contains
    (asciiToLower (SanitizeColumnName col))

/-- The `missing` list collected by `ValidateColumns`, in request order. -/
def missingColumns (db : DB) (tableName : String) (columns : List String) :
    List String :=
  columns.filter (fun col => !(catalogHas db tableName col))

/-- `fmt.Errorf("columns not found in table '%s': %s", tableName,
strings.Join(missing, ", "))` (table.go 144). -/
def validateErrMsg (tableName : String) (missing : List String) : String :=
  "columns not found in table \x27" ++ tableName ++ "\x27: " ++
    String.intercalate ", " missing

/-- `database.ValidateColumns` (table.go 122–148). -/
def ValidateColumns (db : DB) (tableName : String) (columns : List String) :
    Option String :=
  if missingColumns db tableName columns = [] then none
  else some (validateErrMsg tableName (missingColumns db tableName columns))

/-- Deterministic index name `idx_<table>_<sanitized column>` (table.go 159). -/
def indexName (tableName col : String) : String :=
  "idx_" ++ tableName ++ "_" ++ col

/-- `database.CreateIndex` (table.go 152–167): validate the single column,
then `CREATE INDEX IF NOT EXISTS` — a pre-existing same-named index is left
untouched. -/
def CreateIndex (db : DB) (tableName column : String) : DB × Option String :=
  match ValidateColumns db tableName [column] with
  | some e => (db, some e)
  | none =>
      match dbLookup db tableName with
      | none => (db, some "no such table")
      | some t =>
          if t.indexes.contains (indexName tableName (SanitizeColumnName column))
          then (db, none)
          else (dbSet db tableName
            { t with indexes :=
                t.indexes ++ [indexName tableName (SanitizeColumnName column)] }, none)

/-- The per-column loop of `CreateIndexes` (table.go 182–186). -/
def createIndexesLoop (tableName : String) : DB → List String → DB × Option String
  | db, [] => (db, none)
  | db, c :: cs =>
      match CreateIndex db tableName c with
      | (db1, some e) => (db1, some e)
      | (db1, none) => createIndexesLoop tableName db1 cs

/-- `database.CreateIndexes` (table.go 171–189): no-op on an empty request,
validate every column against the catalog first, then create the indexes. -/
def CreateIndexes (db : DB) (tableName : String) (columns : List String) :
    DB × Option String :=
  if columns.isEmpty then (db, none)
  else
    match ValidateColumns db tableName columns with
    | some e => (db, some e)
    | none => createIndexesLoop tableName db columns


/-! ### Batch writer lemmas -/

theorem execBatch_noFail (tbl : String) (w : Nat) (batch : List Row) :
    execBatch noFailOracle tbl w batch = some (batch.map (padRow w)) := by
  induction batch with
  | nil => rfl
  | cons r rs ih =>
      unfold execBatch
      rw [ih]
      rfl

theorem execBatch_eq_some {o : SinkOracle} {tbl : String} {w : Nat} :
    ∀ {batch vs : List Row}, execBatch o tbl w batch = some vs →
      vs = batch.map (padRow w) := by
  intro batch
  induction batch with
  | nil =>
      intro vs h
      simp only [execBatch, Option.some.injEq] at h
      rw [← h]
      rfl
  | cons r rs ih =>
      intro vs h
      unfold execBatch at h
      by_cases hf : o.execFail tbl (padRow w r) = true
      · rw [if_pos hf] at h
        exact absurd h (by simp)
      · rw [if_neg hf] at h
        cases hrec : execBatch o tbl w rs with
        | none => rw [hrec] at h; simp at h
        | some ws =>
            rw [hrec] at h
            have h' : padRow w r :: ws = vs := Option.some.inj h
            rw [← h', ih hrec, List.map_cons]

/-- Full case analysis of `InsertBatch`: no-op on an empty batch, one
transaction per nonempty batch, rollback leaves the sink unchanged, commit
appends the padded batch. -/
theorem insertBatch_spec (o : SinkOracle) (db : DB) (tbl : String)
    (headers : List String) (batch : List Row) :
    (batch = [] → InsertBatch o db tbl headers batch = (db, none, 0)) ∧
    (batch ≠ [] → (InsertBatch o db tbl headers batch).2.2 = 1) ∧
    (∀ e, (InsertBatch o db tbl headers batch).2.1 = some e →
      (InsertBatch o db tbl headers batch).1 = db) ∧
    ((InsertBatch o db tbl headers batch).2.1 = none → batch ≠ [] →
      ∃ t, dbLookup db tbl = some t ∧
        (InsertBatch o db tbl headers batch).1 =
          dbSet db tbl { t with rows := t.rows ++ batch.map (padRow headers.length) }) := by
  by_cases hb : batch = []
  · subst hb
    refine ⟨fun _ => rfl, fun h => absurd rfl h, ?_, fun _ h => absurd rfl h⟩
    intro e he
    exact Option.noConfusion he
  · have hbe : batch.isEmpty = false := by
      cases batch with
      | nil => exact absurd rfl hb
      | cons _ _ => rfl
    refine ⟨fun h => absurd h hb, ?_⟩
    cases hL : dbLookup db tbl with
    | none =>
        have hval : InsertBatch o db tbl headers batch
            = (db, some "failed to prepare statement", 1) := by
          simp [InsertBatch, hbe, hL]
        rw [hval]
        exact ⟨fun _ => rfl, fun e _ => rfl, fun hn _ => absurd hn (by simp)⟩
    | some t =>
        by_cases hp : o.prepFail tbl = true
        · have hval : InsertBatch o db tbl headers batch
              = (db, some "failed to prepare statement", 1) := by
            simp [InsertBatch, hbe, hL, hp]
          rw [hval]
          exact ⟨fun _ => rfl, fun e _ => rfl, fun hn _ => absurd hn (by simp)⟩
        · cases hx : execBatch o tbl headers.length batch with
          | none =>
              have hval : InsertBatch o db tbl headers batch
                  = (db, some "failed to insert row", 1) := by
                simp [InsertBatch, hbe, hL, hp, hx]
              rw [hval]
              exact ⟨fun _ => rfl, fun e _ => rfl, fun hn _ => absurd hn (by simp)⟩
          | some vs =>
              by_cases hc : o.commitFail tbl = true
              · have hval : InsertBatch o db tbl headers batch
                    = (db, some "failed to commit transaction", 1) := by
                  simp [InsertBatch, hbe, hL, hp, hx, hc]
                rw [hval]
                exact ⟨fun _ => rfl, fun e _ => rfl, fun hn _ => absurd hn (by simp)⟩
              · have hval : InsertBatch o db tbl headers batch
                    = (dbSet db tbl { t with rows := t.rows ++ vs }, none, 1) := by
                  simp [InsertBatch, hbe, hL, hp, hx, hc]
                rw [hval]
                refine ⟨fun _ => rfl, fun e he => absurd he (by simp),
                  fun _ _ => ⟨t, rfl, ?_⟩⟩
                rw [← execBatch_eq_some hx]

/-- C7: `InsertBatch` is all-or-nothing per batch: an empty row list is a
no-op success opening no transaction; a nonempty batch opens exactly one
transaction; on any error (statement preparation, a row insert, or commit)
the sink is left exactly as it was — no row of the batch is durably
visible; on success the whole batch, padded to header width, is appended to
the table in one commit. -/
theorem insertBatch_transactional (o : SinkOracle) (db : DB) (tbl : String)
    (headers : List String) (batch : List Row) :
    (batch = [] → InsertBatch o db tbl headers batch = (db, none, 0)) ∧
    (batch ≠ [] → (InsertBatch o db tbl headers batch).2.2 = 1) ∧
    (∀ e, (InsertBatch o db tbl headers batch).2.1 = some e →
      (InsertBatch o db tbl headers batch).1 = db) ∧
    ((InsertBatch o db tbl headers batch).2.1 = none → batch ≠ [] →
      ∃ t, dbLookup db tbl = some t ∧
        (InsertBatch o db tbl headers batch).1 =
          dbSet db tbl { t with rows := t.rows ++ batch.map (padRow headers.length) }) :=
  insertBatch_spec o db tbl headers batch

/-- Closed witness for C7 at a concrete sink and batch. -/
theorem insertBatch_transactional_witness :
    ([["x"]] : List Row) ≠ [] ∧
    (InsertBatch noFailOracle [("t", ⟨["a", "b"], [], []⟩)] "t" ["a", "b"]
        [["x"]]).2.2 = 1 := by
  refine ⟨by decide, ?_⟩
  exact (insertBatch_transactional noFailOracle [("t", ⟨["a", "b"], [], []⟩)] "t"
    ["a", "b"] [["x"]]).2.1 (by decide)

/-! ### Index builder claim -/

/-- C6: when the sanitized form of any requested index column is absent
from the table's catalog-reported schema, `CreateIndexes` returns the
single error listing exactly the missing request columns — the collected
`missing` list is precisely the requested columns whose sanitized form the
catalog lacks — and performs no mutation: the sink, in particular every
index, is exactly as before. -/
theorem createIndexes_atomic_failure (db : DB) (tbl : String) (cols : List String)
    (h : missingColumns db tbl cols ≠ []) :
    CreateIndexes db tbl cols
      = (db, some (validateErrMsg tbl (missingColumns db tbl cols))) ∧
    missingColumns db tbl cols = cols.filter (fun c => !(catalogHas db tbl c)) := by
  have hcols : cols.isEmpty = false := by
    cases cols with
    | nil => exact absurd rfl h
    | cons _ _ => rfl
  refine ⟨?_, rfl⟩
  unfold CreateIndexes ValidateColumns
  simp [hcols, h]

/-- Closed witness for C6: requesting `a` (present) and `nope` (absent) on a
two-column table fails with the error naming `nope` and changes nothing. -/
theorem createIndexes_atomic_failure_witness :
    missingColumns [("data", ⟨["a", "b"], [], []⟩)] "data" ["a", "nope"] ≠ [] ∧
    CreateIndexes [("data", ⟨["a", "b"], [], []⟩)] "data" ["a", "nope"]
      = ([("data", ⟨["a", "b"], [], []⟩)],
         some (validateErrMsg "data"
           (missingColumns [("data", ⟨["a", "b"], [], []⟩)] "data" ["a", "nope"]))) :=
  ⟨by decide, (createIndexes_atomic_failure _ _ _ (by decide)).1⟩

/-! ### The importer model (`internal/importer`, streaming version)

A file, seen through the configured `encoding/csv` reader, is the list of
records the reader yields followed by the reader's terminal outcome: `none`
for clean EOF, `some msg` for a read error (a malformed record, or a record
failing the reader's field-count enforcement) after the listed records.
`FileStream` itself admits arbitrary record streams; which streams the
configured reader can actually yield is constrained separately: `csvRead`
below models the `FieldsPerRecord = 0` default, under which every record
after the first either has the first record's width or ends the stream with
an error.  `OpenFile` is a partial map from paths to streams. -/

structure FileStream where
  records : List Row
  readErr : Option String

abbrev FileSystem := String → Option FileStream

/-- `importer.FileInput` (part_007, lines 35–40). -/
structure FileInput where
  FilePath : String
  TableName : String
  Delimiter : Char
  HasHeader : Bool
  deriving Repr, DecidableEq

/-- `importer.Result` (part_007, lines 19–22). -/
structure Result where
  TableName : String
  RowCount : Nat
  deriving Repr, DecidableEq

/-- `importer.ParsedFile` (part_007, lines 26–32). -/
structure ParsedFile where
  FilePath : String
  TableName : String
  Headers : List String
  Rows : List Row
  Error : Option String
  deriving Repr, DecidableEq

/-- `fmt.Sprintf("col%d", i+1)` for `i` below the first record's width. -/
def mkColNames (n : Nat) : List String :=
  (List.range n).map (fun i => "col" ++ toString (i + 1))

/-- `importer.ParseFile` (part_007, lines 45–110): whole-file parse into
memory.  With a header the first record becomes `Headers`; without one,
headers are synthesized as `col1..colN` from the first record's width and
the first record is kept as data.  A read error after some records leaves
the rows read so far in `Rows` with `Error` set. -/
def ParseFile (fsys : FileSystem) (input : FileInput) : ParsedFile :=
  match fsys input.FilePath with
  | none =>
      { FilePath := input.FilePath, TableName := input.TableName,
        Headers := [], Rows := [], Error := some "failed to open file" }
  | some s =>
      if input.HasHeader then
        match s.records with
        | [] =>
            { FilePath := input.FilePath, TableName := input.TableName,
              Headers := [], Rows := [], Error := some "failed to read header" }
        | h :: rest =>
            { FilePath := input.FilePath, TableName := input.TableName,
              Headers := h, Rows := rest,
              Error := s.readErr.map (fun e => "failed to read row: " ++ e) }
      else
        match s.records with
        | [] =>
            { FilePath := input.FilePath, TableName := input.TableName,
              Headers := [], Rows := [], Error := some "failed to read first row" }
        | first :: rest =>
            { FilePath := input.FilePath, TableName := input.TableName,
              Headers := mkColNames first.length, Rows := first :: rest,
              Error := s.readErr.map (fun e => "failed to read row: " ++ e) }

/-- `database.BatchSize` (table.go, line 11). -/
def BatchSize : Nat := 10000

/-- The batching loop of `WriteToDatabase` (part_007, lines 128–143):
`for i := 0; i < rowCount; i += BatchSize` slicing `BatchSize` rows per
`InsertBatch`, aborting on the first failure. -/
def writeBatchesLoop (o : SinkOracle) (tbl : String) (headers : List String) :
    List Row → DB → DB × Option String
  | rows, db =>
    if h : rows = [] then (db, none)
    else
      match InsertBatch o db tbl headers (rows.take BatchSize) with
      | (db1, some e, _) => (db1, some e)
      | (db1, none, _) => writeBatchesLoop o tbl headers (rows.drop BatchSize) db1
  termination_by rows _ => rows.length
  decreasing_by
    simp only [List.length_drop]
    have : 0 < rows.length := List.length_pos.mpr h
    simp only [BatchSize]
    omega

/-- `importer.WriteToDatabase` (part_007, lines 115–149): propagate a parse
error without touching the sink, otherwise create the table and write the
parsed rows batch by batch. -/
def WriteToDatabase (o : SinkOracle) (db : DB) (p : ParsedFile) :
    DB × Except String Result :=
  match p.Error with
  | some e => (db, Except.error e)
  | none =>
      match writeBatchesLoop o p.TableName p.Headers p.Rows
          (CreateTable db p.TableName p.Headers) with
      | (db1, some e) => (db1, Except.error ("failed to insert batch: " ++ e))
      | (db1, none) =>
          (db1, Except.ok { TableName := p.TableName, RowCount := p.Rows.length })

/-- The mutable state of the streaming read loop in `importFileStreaming`
(part_007, lines 286–288), plus the trace of batch sizes handed to
`InsertBatch` (the write-progress events). -/
structure StreamState where
  db : DB
  batch : List Row
  rowCount : Nat
  writes : List Nat
  deriving Repr, DecidableEq

/-- The `for { record, err := reader.Read() ... }` loop of
`importFileStreaming` (part_007, lines 290–321): append the record to the
batch, and when the batch reaches `BatchSize` flush it through
`InsertBatch` and clear it; an insert failure aborts the file. -/
def streamLoop (o : SinkOracle) (tbl : String) (headers : List String) :
    List Row → StreamState → StreamState × Option String
  | [], st => (st, none)
  | r :: rs, st =>
      if BatchSize ≤ (st.batch ++ [r]).length then
        match InsertBatch o st.db tbl headers (st.batch ++ [r]) with
        | (db1, some e, _) =>
            ({ db := db1, batch := st.batch ++ [r], rowCount := st.rowCount + 1,
               writes := st.writes ++ [(st.batch ++ [r]).length] },
             some ("failed to insert batch: " ++ e))
        | (db1, none, _) =>
            streamLoop o tbl headers rs
              { db := db1, batch := [], rowCount := st.rowCount + 1,
                writes := st.writes ++ [(st.batch ++ [r]).length] }
      else
        streamLoop o tbl headers rs
          { st with batch := st.batch ++ [r], rowCount := st.rowCount + 1 }

/-- The tail of `importFileStreaming` (part_007, lines 290–339) once the
read loop has consumed every record the reader yields: surface a mid-file
read error (the trailing partial batch is *not* written in that case),
otherwise flush the trailing partial batch — possibly empty — and report
the row count. -/
def importFinish (o : SinkOracle) (tblName : String) (headers : List String)
    (readErr : Option String) (st : StreamState) :
    DB × List Nat × Except String Result :=
  match readErr with
  | some e => (st.db, st.writes, Except.error ("failed to read row: " ++ e))
  | none =>
      if st.batch = [] then
        (st.db, st.writes,
         Except.ok { TableName := tblName, RowCount := st.rowCount })
      else
        match InsertBatch o st.db tblName headers st.batch with
        | (db2, some e, _) =>
            (db2, st.writes ++ [st.batch.length],
             Except.error ("failed to insert final batch: " ++ e))
        | (db2, none, _) =>
            (db2, st.writes ++ [st.batch.length],
             Except.ok { TableName := tblName, RowCount := st.rowCount })

/-- `importer.importFileStreaming` (part_007, lines 245–339): open, read or
synthesize the header (without a header the first record only fixes the
column names — the code does not add it to the batch), create the table,
stream the remaining records in `BatchSize` batches, then finish via
`importFinish`.  Returns the sink, the trace of batch sizes handed to
`InsertBatch`, and the outcome. -/
def importFileStreaming (o : SinkOracle) (fsys : FileSystem) (db : DB)
    (input : FileInput) : DB × List Nat × Except String Result :=
  match fsys input.FilePath with
  | none => (db, [], Except.error "failed to open file")
  | some s =>
      match s.records with
      | [] =>
          (db, [], Except.error
            (if input.HasHeader then "failed to read header"
             else "failed to read first row"))
      | first :: rest =>
          let headers := if input.HasHeader then first else mkColNames first.length
          let db1 := CreateTable db input.TableName headers
          match streamLoop o input.TableName headers rest
              { db := db1, batch := [], rowCount := 0, writes := [] } with
          | (st, some e) => (st.db, st.writes, Except.error e)
          | (st, none) => importFinish o input.TableName headers s.readErr st

/-- The per-file fan-out of `ImportConcurrent` (part_007, lines 193–234):
one worker per input; a success appends to `results`, a failure appends
`fmt.Errorf("%s: %w", path, err)` — modelled as the (path, message) pair —
to `errs`.  The workers are modelled in input order; each owns its file,
and results and errors are appended under one mutex in the Go code. -/
def importConcurrentLoop (o : SinkOracle) (fsys : FileSystem) :
    List FileInput → DB → List Result → List (String × String) →
    List Result × List (String × String) × DB
  | [], db, results, errs => (results, errs, db)
  | inp :: rest, db, results, errs =>
      match importFileStreaming o fsys db inp with
      | (db1, _, Except.error e) =>
          importConcurrentLoop o fsys rest db1 results (errs ++ [(inp.FilePath, e)])
      | (db1, _, Except.ok r) =>
          importConcurrentLoop o fsys rest db1 (results ++ [r]) errs

/-- `importer.ImportConcurrent` (part_007, lines 173–241): empty input is a
no-op with nil results and nil error; otherwise every file is imported and
the per-file failures are joined — the error list models `errors.Join`,
which is non-nil exactly when the list is nonempty. -/
def ImportConcurrent (o : SinkOracle) (fsys : FileSystem) (db : DB)
    (inputs : List FileInput) : List Result × List (String × String) × DB :=
  if inputs = [] then ([], [], db)
  else importConcurrentLoop o fsys inputs db [] []

/-- Success condition of one streaming file import under a never-failing
sink: the file opens, has at least one record (header or first data row),
and the reader reaches EOF without a tokenization error. -/
def fileOk (fsys : FileSystem) (i : FileInput) : Bool :=
  match fsys i.FilePath with
  | none => false
  | some s =>
      match s.records, s.readErr with
      | [], _ => false
      | _ :: _, some _ => false
      | _ :: _, none => true

/-- Row count reported for a successfully imported file: every record after
the first (the streaming path consumes the first record for the header in
both modes). -/
def fileRowCount (fsys : FileSystem) (i : FileInput) : Nat :=
  match fsys i.FilePath with
  | some s => s.records.length - 1
  | none => 0

/-! ### Sink and streaming-loop lemmas -/

theorem dbLookup_cons_ne {e : String × Table} {db : DB} {n : String}
    (he : (e.1 == n) = false) : dbLookup (e :: db) n = dbLookup db n := by
  simp [dbLookup, List.find?, he]

theorem dbLookup_dbSet_self (db : DB) (n : String) (t : Table) :
    dbLookup (dbSet db n t) n = some t := by
  induction db with
  | nil => simp [dbSet, dbLookup, List.find?]
  | cons e rest ih =>
      unfold dbSet
      by_cases he : (e.1 == n) = true
      · rw [if_pos he]
        simp [dbLookup, List.find?]
      · rw [if_neg he]
        rw [dbLookup_cons_ne (Bool.not_eq_true _ ▸ he)]
        exact ih

theorem insertBatch_noFail_success {db : DB} {tbl : String} {t : Table}
    (hs : List String) {batch : List Row} (hL : dbLookup db tbl = some t)
    (hb : batch ≠ []) :
    InsertBatch noFailOracle db tbl hs batch
      = (dbSet db tbl { t with rows := t.rows ++ batch.map (padRow hs.length) },
         none, 1) := by
  have hbe : batch.isEmpty = false := by
    cases batch with
    | nil => exact absurd rfl hb
    | cons _ _ => rfl
  have hp : noFailOracle.prepFail tbl = false := rfl
  have hc : noFailOracle.commitFail tbl = false := rfl
  have hx := execBatch_noFail tbl hs.length batch
  simp [InsertBatch, hbe, hL, hp, hx, hc]

theorem streamLoop_append_none (o : SinkOracle) (tbl : String) (hs : List String) :
    ∀ (xs : List Row) {st st1 : StreamState},
      streamLoop o tbl hs xs st = (st1, none) →
      ∀ ys, streamLoop o tbl hs (xs ++ ys) st = streamLoop o tbl hs ys st1 := by
  intro xs
  induction xs with
  | nil =>
      intro st st1 h ys
      have h1 : st = st1 := (Prod.ext_iff.mp h).1
      rw [List.nil_append, h1]
  | cons r rs ih =>
      intro st st1 h ys
      rw [List.cons_append]
      simp only [streamLoop] at h ⊢
      by_cases hB : BatchSize ≤ (st.batch ++ [r]).length
      · rw [if_pos hB] at h ⊢
        rcases hIB : InsertBatch o st.db tbl hs (st.batch ++ [r]) with ⟨db1, err, cnt⟩
        rw [hIB] at h
        cases err with
        | some e => exact absurd (Prod.ext_iff.mp h).2 (by simp)
        | none => exact ih h ys
      · rw [if_neg hB] at h ⊢
        exact ih h ys

theorem streamLoop_noflush (o : SinkOracle) (tbl : String) (hs : List String) :
    ∀ (rs : List Row) (st : StreamState),
      st.batch.length + rs.length < BatchSize →
      streamLoop o tbl hs rs st
        = ({ st with
              batch := st.batch ++ rs,
              rowCount := st.rowCount + rs.length }, none) := by
  intro rs
  induction rs with
  | nil =>
      intro st h
      show (st, none) = _
      simp
  | cons r rs ih =>
      intro st h
      simp only [streamLoop]
      rw [if_neg (by
        simp only [List.length_append, List.length_cons, List.length_nil] at h ⊢
        omega)]
      rw [ih (StreamState.mk st.db (st.batch ++ [r]) (st.rowCount + 1) st.writes) (by
        show (st.batch ++ [r]).length + rs.length < BatchSize
        simp only [List.length_append, List.length_cons, List.length_nil] at h ⊢
        omega)]
      have hb : (st.batch ++ [r]) ++ rs = st.batch ++ r :: rs := by simp
      have hc : st.rowCount + 1 + rs.length = st.rowCount + (r :: rs).length := by
        simp only [List.length_cons]
        omega
      rw [hb, hc]

theorem streamLoop_flush_single {tbl : String} (hs : List String)
    {st : StreamState} {t : Table} (r : Row)
    (hlen : st.batch.length + 1 = BatchSize)
    (hL : dbLookup st.db tbl = some t) :
    streamLoop noFailOracle tbl hs [r] st
      = ({ db := dbSet st.db tbl
             { t with rows := t.rows ++ (st.batch ++ [r]).map (padRow hs.length) },
           batch := [], rowCount := st.rowCount + 1,
           writes := st.writes ++ [(st.batch ++ [r]).length] }, none) := by
  simp only [streamLoop]
  rw [if_pos (by
    simp only [List.length_append, List.length_cons, List.length_nil]
    omega)]
  rw [insertBatch_noFail_success hs hL (by simp)]

theorem streamLoop_noerr (tbl : String) (hs : List String) :
    ∀ (rs : List Row) (st : StreamState),
      (∃ t, dbLookup st.db tbl = some t) →
      (streamLoop noFailOracle tbl hs rs st).2 = none ∧
      (∃ t', dbLookup (streamLoop noFailOracle tbl hs rs st).1.db tbl = some t') ∧
      (streamLoop noFailOracle tbl hs rs st).1.rowCount = st.rowCount + rs.length := by
  intro rs
  induction rs with
  | nil =>
      rintro st ⟨t, ht⟩
      exact ⟨rfl, ⟨t, ht⟩, rfl⟩
  | cons r rs ih =>
      rintro st ⟨t, ht⟩
      simp only [streamLoop]
      by_cases hB : BatchSize ≤ (st.batch ++ [r]).length
      · rw [if_pos hB, insertBatch_noFail_success hs ht (by simp)]
        obtain ⟨h1, h2, h3⟩ := ih
          (StreamState.mk
            (dbSet st.db tbl
              { t with rows := t.rows ++ (st.batch ++ [r]).map (padRow hs.length) })
            [] (st.rowCount + 1) (st.writes ++ [(st.batch ++ [r]).length]))
          ⟨_, dbLookup_dbSet_self st.db tbl _⟩
        exact ⟨h1, h2, h3.trans (by
          show st.rowCount + 1 + rs.length = st.rowCount + (r :: rs).length
          simp only [List.length_cons]
          omega)⟩
      · rw [if_neg hB]
        obtain ⟨h1, h2, h3⟩ := ih
          (StreamState.mk st.db (st.batch ++ [r]) (st.rowCount + 1) st.writes)
          ⟨t, ht⟩
        exact ⟨h1, h2, h3.trans (by
          show st.rowCount + 1 + rs.length = st.rowCount + (r :: rs).length
          simp only [List.length_cons]
          omega)⟩

theorem streamLoop_writes (o : SinkOracle) (tbl : String) (hs : List String) :
    ∀ (rs : List Row) (st : StreamState),
      st.batch.length < BatchSize →
      (∃ ws, (streamLoop o tbl hs rs st).1.writes = st.writes ++ ws ∧
        ∀ w ∈ ws, w = BatchSize) ∧
      ((streamLoop o tbl hs rs st).2 = none →
        (streamLoop o tbl hs rs st).1.batch.length < BatchSize) := by
  intro rs
  induction rs with
  | nil =>
      intro st h
      exact ⟨⟨[], by rw [List.append_nil]; rfl, by simp⟩, fun _ => h⟩
  | cons r rs ih =>
      intro st h
      simp only [streamLoop]
      by_cases hB : BatchSize ≤ (st.batch ++ [r]).length
      · rw [if_pos hB]
        have hlen : (st.batch ++ [r]).length = BatchSize := by
          simp only [List.length_append, List.length_cons, List.length_nil] at hB ⊢
          omega
        rcases hIB : InsertBatch o st.db tbl hs (st.batch ++ [r]) with ⟨db1, err, cnt⟩
        cases err with
        | some e =>
            refine ⟨⟨[(st.batch ++ [r]).length], rfl, ?_⟩, ?_⟩
            · intro w hw
              rw [List.mem_singleton.mp hw, hlen]
            · intro hcon
              exact absurd hcon (by simp)
        | none =>
            obtain ⟨⟨ws, hws, hall⟩, hbatch⟩ := ih
              (StreamState.mk db1 [] (st.rowCount + 1)
                (st.writes ++ [(st.batch ++ [r]).length]))
              (by show (0 : Nat) < BatchSize; decide)
            refine ⟨⟨(st.batch ++ [r]).length :: ws, ?_, ?_⟩, hbatch⟩
            · exact hws.trans (by rw [List.append_assoc]; rfl)
            · intro w hw
              rcases List.mem_cons.mp hw with rfl | hw
              · exact hlen
              · exact hall w hw
      · rw [if_neg hB]
        exact ih (StreamState.mk st.db (st.batch ++ [r]) (st.rowCount + 1) st.writes)
          (by
            show (st.batch ++ [r]).length < BatchSize
            simp only [List.length_append, List.length_cons, List.length_nil] at hB ⊢
            omega)

/-! ### WriteToDatabase claims -/

/-- C10: a `ParsedFile` carrying a parse error is rejected by
`WriteToDatabase` before any sink operation: the recorded error is returned
as-is, and the sink — in particular any pre-existing table with the
destination name — is exactly as it was, neither dropped nor created nor
written. -/
theorem writeToDatabase_propagates_parse_error (o : SinkOracle) (db : DB)
    (p : ParsedFile) (e : String) (h : p.Error = some e) :
    WriteToDatabase o db p = (db, Except.error e) := by
  unfold WriteToDatabase
  rw [h]

/-- Closed witness for C10: a parse error leaves a pre-existing table in
place. -/
theorem writeToDatabase_propagates_parse_error_witness :
    ({ FilePath := "f", TableName := "t", Headers := [], Rows := [],
       Error := some "boom" } : ParsedFile).Error = some "boom" ∧
    WriteToDatabase noFailOracle [("t", ⟨["old"], [["1"]], []⟩)]
      { FilePath := "f", TableName := "t", Headers := [], Rows := [],
        Error := some "boom" }
      = ([("t", ⟨["old"], [["1"]], []⟩)], Except.error "boom") :=
  ⟨rfl, writeToDatabase_propagates_parse_error noFailOracle
    [("t", ⟨["old"], [["1"]], []⟩)] _ "boom" rfl⟩

/-- One iteration covers a batch no longer than `BatchSize`. -/
theorem writeBatchesLoop_small (o : SinkOracle) (tbl : String) (hs : List String)
    (rows : List Row) (db : DB) (hlen : rows.length ≤ BatchSize) (hne : rows ≠ []) :
    writeBatchesLoop o tbl hs rows db
      = match InsertBatch o db tbl hs rows with
        | (db1, some e, _) => (db1, some e)
        | (db1, none, _) => (db1, none) := by
  rw [writeBatchesLoop.eq_1, dif_neg hne, List.take_of_length_le hlen]
  rcases hIB : InsertBatch o db tbl hs rows with ⟨db1, err, cnt⟩
  cases err with
  | some e => rfl
  | none =>
      show writeBatchesLoop o tbl hs (rows.drop BatchSize) db1 = (db1, none)
      rw [List.drop_eq_nil_of_le hlen, writeBatchesLoop.eq_1, dif_pos rfl]

/-! ### The headerless first-row claim -/

/-- A 3-line headerless file, `1,a` / `2,b` / `3,c`, as the reader yields it. -/
def fsysNoHeader : FileSystem := fun p =>
  if p = "noheader.csv" then
    some { records := [["1", "a"], ["2", "b"], ["3", "c"]], readErr := none }
  else none

def inputNoHeader : FileInput :=
  { FilePath := "noheader.csv", TableName := "test", Delimiter := ',',
    HasHeader := false }

/-- C5 (code bug): on a 3-line headerless file the streaming importer
synthesizes `col1, col2` from the first row's width but then drops that
first row — it reports 2 rows and stores only the last two — while the
non-streaming path (`ParseFile` then `WriteToDatabase`), which the
specification and the repository's own `TestImportWithoutHeader` describe,
reports 3 rows and stores all three. -/
theorem headerless_first_row_dropped :
    (importFileStreaming noFailOracle fsysNoHeader [] inputNoHeader).2.2
      = Except.ok { TableName := "test", RowCount := 2 } ∧
    dbLookup (importFileStreaming noFailOracle fsysNoHeader [] inputNoHeader).1 "test"
      = some { cols := ["col1", "col2"], rows := [["2", "b"], ["3", "c"]],
               indexes := [] } ∧
    (WriteToDatabase noFailOracle [] (ParseFile fsysNoHeader inputNoHeader)).2
      = Except.ok { TableName := "test", RowCount := 3 } ∧
    dbLookup (WriteToDatabase noFailOracle [] (ParseFile fsysNoHeader inputNoHeader)).1
        "test"
      = some { cols := ["col1", "col2"],
               rows := [["1", "a"], ["2", "b"], ["3", "c"]], indexes := [] } := by
  have hp : ParseFile fsysNoHeader inputNoHeader
      = { FilePath := "noheader.csv", TableName := "test",
          Headers := ["col1", "col2"],
          Rows := [["1", "a"], ["2", "b"], ["3", "c"]], Error := none } := by
    decide
  have hw : WriteToDatabase noFailOracle [] (ParseFile fsysNoHeader inputNoHeader)
      = ([("test", { cols := ["col1", "col2"],
                     rows := [["1", "a"], ["2", "b"], ["3", "c"]],
                     indexes := [] })],
         Except.ok { TableName := "test", RowCount := 3 }) := by
    rw [hp]
    simp only [WriteToDatabase]
    rw [writeBatchesLoop_small _ _ _ _ _ (by decide) (by decide)]
    rfl
  exact ⟨rfl, rfl, by rw [hw], by rw [hw]; rfl⟩

/-! ### Per-file outcome of the streaming importer under a reliable sink -/

theorem importFileStreaming_ok (fsys : FileSystem) (db : DB) (i : FileInput)
    (hok : fileOk fsys i = true) :
    ∃ db' ws, importFileStreaming noFailOracle fsys db i
      = (db', ws, Except.ok { TableName := i.TableName,
                              RowCount := fileRowCount fsys i }) := by
  cases hf : fsys i.FilePath with
  | none => simp [fileOk, hf] at hok
  | some s =>
      cases hrec : s.records with
      | nil => simp [fileOk, hf, hrec] at hok
      | cons first rest =>
          cases hrerr : s.readErr with
          | some e => simp [fileOk, hf, hrec, hrerr] at hok
          | none =>
              have hcount : fileRowCount fsys i = rest.length := by
                simp [fileRowCount, hf, hrec]
              simp only [importFileStreaming, hf, hrec]
              have hpres : ∃ t, dbLookup
                  (CreateTable db i.TableName
                    (if i.HasHeader then first else mkColNames first.length))
                  i.TableName = some t :=
                ⟨_, dbLookup_dbSet_self db i.TableName _⟩
              obtain ⟨hsl2, hpres', hrc⟩ := streamLoop_noerr i.TableName
                (if i.HasHeader then first else mkColNames first.length) rest
                (StreamState.mk
                  (CreateTable db i.TableName
                    (if i.HasHeader then first else mkColNames first.length))
                  [] 0 []) hpres
              rcases hSL : streamLoop noFailOracle i.TableName
                  (if i.HasHeader then first else mkColNames first.length) rest
                  (StreamState.mk
                    (CreateTable db i.TableName
                      (if i.HasHeader then first else mkColNames first.length))
                    [] 0 []) with ⟨st, err⟩
              rw [hSL] at hsl2 hpres' hrc
              cases err with
              | some e2 => exact absurd hsl2 (by simp)
              | none =>
                  rw [hrerr]
                  have hrc' : st.rowCount = fileRowCount fsys i := by
                    rw [hcount]
                    have h0 : st.rowCount = 0 + rest.length := hrc
                    omega
                  show ∃ db' ws,
                    (if st.batch = [] then
                        (st.db, st.writes,
                         Except.ok (Result.mk i.TableName st.rowCount))
                      else
                        match InsertBatch noFailOracle st.db i.TableName
                            (if i.HasHeader then first else mkColNames first.length)
                            st.batch with
                        | (db2, some e, _) =>
                            (db2, st.writes ++ [st.batch.length],
                             Except.error ("failed to insert final batch: " ++ e))
                        | (db2, none, _) =>
                            (db2, st.writes ++ [st.batch.length],
                             Except.ok (Result.mk i.TableName st.rowCount)))
                      = (db', ws,
                         Except.ok (Result.mk i.TableName (fileRowCount fsys i)))
                  rw [← hrc']
                  by_cases hb : st.batch = []
                  · rw [if_pos hb]
                    exact ⟨st.db, st.writes, rfl⟩
                  · obtain ⟨t', ht'⟩ := hpres'
                    have ht'' : dbLookup st.db i.TableName = some t' := ht'
                    rw [if_neg hb, insertBatch_noFail_success _ ht'' hb]
                    exact ⟨_, _, rfl⟩

theorem importFileStreaming_err (fsys : FileSystem) (db : DB) (i : FileInput)
    (hok : fileOk fsys i = false) :
    ∃ db' ws e, importFileStreaming noFailOracle fsys db i
      = (db', ws, Except.error e) := by
  cases hf : fsys i.FilePath with
  | none =>
      simp only [importFileStreaming, hf]
      exact ⟨db, [], _, rfl⟩
  | some s =>
      cases hrec : s.records with
      | nil =>
          simp only [importFileStreaming, hf, hrec]
          exact ⟨db, [], _, rfl⟩
      | cons first rest =>
          cases hrerr : s.readErr with
          | none => simp [fileOk, hf, hrec, hrerr] at hok
          | some e =>
              simp only [importFileStreaming, hf, hrec]
              have hpres : ∃ t, dbLookup
                  (CreateTable db i.TableName
                    (if i.HasHeader then first else mkColNames first.length))
                  i.TableName = some t :=
                ⟨_, dbLookup_dbSet_self db i.TableName _⟩
              obtain ⟨hsl2, _, _⟩ := streamLoop_noerr i.TableName
                (if i.HasHeader then first else mkColNames first.length) rest
                (StreamState.mk
                  (CreateTable db i.TableName
                    (if i.HasHeader then first else mkColNames first.length))
                  [] 0 []) hpres
              rcases hSL : streamLoop noFailOracle i.TableName
                  (if i.HasHeader then first else mkColNames first.length) rest
                  (StreamState.mk
                    (CreateTable db i.TableName
                      (if i.HasHeader then first else mkColNames first.length))
                    [] 0 []) with ⟨st, err⟩
              rw [hSL] at hsl2
              cases err with
              | some e2 => exact absurd hsl2 (by simp)
              | none =>
                  rw [hrerr]
                  exact ⟨st.db, st.writes, _, rfl⟩

theorem importConcurrentLoop_spec (fsys : FileSystem) :
    ∀ (inputs : List FileInput) (db : DB) (results : List Result)
      (errs : List (String × String)),
      (importConcurrentLoop noFailOracle fsys inputs db results errs).1
        = results ++ (inputs.filter (fun i => fileOk fsys i)).map
            (fun i => { TableName := i.TableName, RowCount := fileRowCount fsys i }) ∧
      ((importConcurrentLoop noFailOracle fsys inputs db results errs).2.1).map Prod.fst
        = errs.map Prod.fst
            ++ (inputs.filter (fun i => !(fileOk fsys i))).map (fun i => i.FilePath) := by
  intro inputs
  induction inputs with
  | nil =>
      intro db results errs
      constructor
      · rw [List.filter_nil, List.map_nil, List.append_nil]
        rfl
      · rw [List.filter_nil, List.map_nil, List.append_nil]
        rfl
  | cons i rest ih =>
      intro db results errs
      by_cases hok : fileOk fsys i = true
      · obtain ⟨db', ws, himp⟩ := importFileStreaming_ok fsys db i hok
        simp only [importConcurrentLoop, himp]
        obtain ⟨h1, h2⟩ := ih db'
          (results ++ [{ TableName := i.TableName, RowCount := fileRowCount fsys i }])
          errs
        constructor
        · rw [h1, List.filter_cons_of_pos hok, List.map_cons, List.append_assoc]
          rfl
        · rw [h2, List.filter_cons_of_neg (by simp [hok])]
      · have hok' : fileOk fsys i = false := Bool.not_eq_true _ ▸ hok
        obtain ⟨db', ws, e, himp⟩ := importFileStreaming_err fsys db i hok'
        simp only [importConcurrentLoop, himp]
        obtain ⟨h1, h2⟩ := ih db' results (errs ++ [(i.FilePath, e)])
        constructor
        · rw [h1, List.filter_cons_of_neg (by simp [hok'])]
        · rw [h2, List.filter_cons_of_pos (by simp [hok']), List.map_cons,
            List.map_append, List.append_assoc]
          rfl

/-! ### Import orchestrator claim -/

/-- Two inputs: `good.csv` (a header and two data rows) and `missing.csv`
(unreadable: `OpenFile` fails). -/
def fsysPartial : FileSystem := fun p =>
  if p = "good.csv" then some { records := [["h"], ["1"], ["2"]], readErr := none }
  else none

def inputGood : FileInput :=
  { FilePath := "good.csv", TableName := "users", Delimiter := ',', HasHeader := true }

def inputMissing : FileInput :=
  { FilePath := "missing.csv", TableName := "missing", Delimiter := ',',
    HasHeader := true }

/-- C1: `ImportConcurrent` aggregates per-file outcomes independently: it
returns one `Result`, carrying the file's full row count, for exactly the
files that import successfully — a failure in one file never prevents the
others from being fully imported — and the combined error (non-nil exactly
when some file failed) carries one entry per failed file with that file's
path.  In particular, for two inputs of which exactly one is unreadable,
the result list has exactly one element, the combined error names the
missing path, and the successful file's table is fully populated. -/
theorem importConcurrent_partial_failure :
    (∀ (fsys : FileSystem) (db : DB) (inputs : List FileInput),
      (ImportConcurrent noFailOracle fsys db inputs).1
        = (inputs.filter (fun i => fileOk fsys i)).map
            (fun i => { TableName := i.TableName, RowCount := fileRowCount fsys i }) ∧
      ((ImportConcurrent noFailOracle fsys db inputs).2.1).map Prod.fst
        = (inputs.filter (fun i => !(fileOk fsys i))).map (fun i => i.FilePath)) ∧
    (ImportConcurrent noFailOracle fsysPartial [] [inputGood, inputMissing]).1
      = [{ TableName := "users", RowCount := 2 }] ∧
    (ImportConcurrent noFailOracle fsysPartial [] [inputGood, inputMissing]).2.1
      = [("missing.csv", "failed to open file")] ∧
    dbLookup (ImportConcurrent noFailOracle fsysPartial []
        [inputGood, inputMissing]).2.2 "users"
      = some { cols := ["h"], rows := [["1"], ["2"]], indexes := [] } := by
  refine ⟨?_, rfl, rfl, rfl⟩
  intro fsys db inputs
  cases inputs with
  | nil => exact ⟨rfl, rfl⟩
  | cons i rest =>
      have hne : (i :: rest : List FileInput) ≠ [] := by simp
      unfold ImportConcurrent
      rw [if_neg hne]
      obtain ⟨h1, h2⟩ := importConcurrentLoop_spec fsys (i :: rest) db [] []
      exact ⟨h1.trans (by rw [List.nil_append]), h2.trans (by rw [List.map_nil, List.nil_append])⟩

/-! ### Concrete large-file artifacts for the batch-capacity claims -/

def vRow : Row := ["v"]

def dbT0 : DB := [("data", { cols := ["h"], rows := [], indexes := [] })]

def dbT1 : DB :=
  [("data", { cols := ["h"], rows := List.replicate 10000 vRow, indexes := [] })]

def dbBig : DB :=
  [("data", { cols := ["h"], rows := List.replicate 10001 vRow, indexes := [] })]

/-- A 10,001-data-row file under a header. -/
def bigStream : FileStream :=
  { records := ["h"] :: List.replicate 10001 vRow, readErr := none }

def fsysBig : FileSystem := fun p =>
  if p = "big.csv" then some bigStream else none

def inputBig : FileInput :=
  { FilePath := "big.csv", TableName := "data", Delimiter := ',', HasHeader := true }

/-- A file whose reader yields 10,000 data rows (after the header) and then
fails with a tokenization error. -/
def truncStream : FileStream :=
  { records := ["h"] :: List.replicate 10000 vRow,
    readErr := some "unterminated quote" }

def fsysTrunc : FileSystem := fun p =>
  if p = "trunc.csv" then some truncStream else none

def inputTrunc : FileInput :=
  { FilePath := "trunc.csv", TableName := "data", Delimiter := ',',
    HasHeader := true }

/-- `streamLoop_noflush` restated on an explicit state constructor. -/
theorem streamLoop_noflush_mk (o : SinkOracle) (tbl : String) (hs : List String)
    (rs : List Row) (db : DB) (b : List Row) (rc : Nat) (w : List Nat)
    (h : b.length + rs.length < BatchSize) :
    streamLoop o tbl hs rs (StreamState.mk db b rc w)
      = (StreamState.mk db (b ++ rs) (rc + rs.length) w, none) := by
  rw [streamLoop_noflush o tbl hs rs (StreamState.mk db b rc w) h]

/-- Streaming 10,000 rows from a fresh state performs exactly one full-batch
flush. -/
theorem streamLoop_big10000 :
    streamLoop noFailOracle "data" ["h"] (List.replicate 10000 vRow)
      (StreamState.mk dbT0 [] 0 [])
      = (StreamState.mk dbT1 [] 10000 [10000], none) := by
  have hdec : List.replicate 10000 vRow = List.replicate 9999 vRow ++ [vRow] := by
    rw [← List.replicate_succ']
  have hnf := streamLoop_noflush_mk noFailOracle "data" ["h"]
    (List.replicate 9999 vRow) dbT0 [] 0 []
    (by
      simp only [List.length_nil, List.length_replicate, BatchSize]
      omega)
  rw [hdec, streamLoop_append_none noFailOracle "data" ["h"]
    (List.replicate 9999 vRow) hnf [vRow]]
  have hL : dbLookup dbT0 "data"
      = some { cols := ["h"], rows := [], indexes := [] } := rfl
  rw [streamLoop_flush_single ["h"] vRow
    (by
      show (([] : List Row) ++ List.replicate 9999 vRow).length + 1 = BatchSize
      simp only [List.nil_append, List.length_replicate, BatchSize]) hL]
  have hmap : ((([] : List Row) ++ List.replicate 9999 vRow) ++ [vRow]).map
      (padRow (["h"] : List String).length) = List.replicate 10000 vRow := by
    rw [List.nil_append, ← List.replicate_succ', List.map_replicate]
    show List.replicate (9999 + 1) vRow = List.replicate 10000 vRow
    norm_num
  rw [hmap]
  have hlenw : ((([] : List Row) ++ List.replicate 9999 vRow) ++ [vRow]).length
      = 10000 := by
    simp only [List.nil_append, List.length_append, List.length_replicate,
      List.length_cons, List.length_nil]
  rw [hlenw]
  have hrc : (0 : Nat) + (List.replicate 9999 vRow).length + 1 = 10000 := by
    simp only [List.length_replicate]
  rw [hrc]
  rfl

/-- Every batch handed to `InsertBatch` during one streaming file import is
bounded by `BatchSize`, and every batch except possibly the last is exactly
`BatchSize` (the buffer is flushed exactly when it reaches capacity, and
only the trailing flush may be smaller). -/
theorem importFileStreaming_writes_bound (o : SinkOracle) (fsys : FileSystem)
    (db : DB) (input : FileInput) :
    (∀ w ∈ (importFileStreaming o fsys db input).2.1.dropLast, w = BatchSize) ∧
    (∀ w ∈ (importFileStreaming o fsys db input).2.1, w ≤ BatchSize) := by
  cases hf : fsys input.FilePath with
  | none =>
      simp only [importFileStreaming, hf]
      exact ⟨fun w hw => absurd hw (by simp), fun w hw => absurd hw (by simp)⟩
  | some s =>
      cases hrec : s.records with
      | nil =>
          simp only [importFileStreaming, hf, hrec]
          exact ⟨fun w hw => absurd hw (by simp), fun w hw => absurd hw (by simp)⟩
      | cons first rest =>
          simp only [importFileStreaming, hf, hrec]
          obtain ⟨⟨ws, hws, hall⟩, hbatch⟩ := streamLoop_writes o input.TableName
            (if input.HasHeader then first else mkColNames first.length) rest
            (StreamState.mk (CreateTable db input.TableName
              (if input.HasHeader then first else mkColNames first.length)) [] 0 [])
            (by show (0 : Nat) < BatchSize; decide)
          rcases hSL : streamLoop o input.TableName
              (if input.HasHeader then first else mkColNames first.length) rest
              (StreamState.mk (CreateTable db input.TableName
                (if input.HasHeader then first else mkColNames first.length)) [] 0 [])
            with ⟨st, err⟩
          rw [hSL] at hws hbatch
          have hws' : st.writes = ws := by
            have h0 : st.writes = [] ++ ws := hws
            rw [h0, List.nil_append]
          cases err with
          | some e =>
              show (∀ w ∈ st.writes.dropLast, w = BatchSize) ∧
                   (∀ w ∈ st.writes, w ≤ BatchSize)
              rw [hws']
              exact ⟨fun w hw => hall w (List.dropLast_subset _ hw),
                     fun w hw => (hall w hw).le⟩
          | none =>
              show (∀ w ∈ (importFinish o input.TableName
                      (if input.HasHeader then first else mkColNames first.length)
                      s.readErr st).2.1.dropLast, w = BatchSize) ∧
                   (∀ w ∈ (importFinish o input.TableName
                      (if input.HasHeader then first else mkColNames first.length)
                      s.readErr st).2.1, w ≤ BatchSize)
              cases hre : s.readErr with
              | some e =>
                  simp only [importFinish]
                  rw [hws']
                  exact ⟨fun w hw => hall w (List.dropLast_subset _ hw),
                         fun w hw => (hall w hw).le⟩
              | none =>
                  have hsb : st.batch.length < BatchSize := hbatch rfl
                  simp only [importFinish]
                  by_cases hb : st.batch = []
                  · rw [if_pos hb, hws']
                    exact ⟨fun w hw => hall w (List.dropLast_subset _ hw),
                           fun w hw => (hall w hw).le⟩
                  · rw [if_neg hb]
                    rcases hIB : InsertBatch o st.db input.TableName
                        (if input.HasHeader then first else mkColNames first.length)
                        st.batch with ⟨db2, err2, cnt2⟩
                    have hfin : ∀ w ∈ st.writes ++ [st.batch.length],
                        w = BatchSize ∨ w = st.batch.length := by
                      intro w hw
                      rcases List.mem_append.mp hw with hw | hw
                      · exact Or.inl (hall w (hws' ▸ hw))
                      · exact Or.inr (List.mem_singleton.mp hw)
                    have hdl : ∀ w ∈ (st.writes ++ [st.batch.length]).dropLast,
                        w = BatchSize := by
                      rw [List.dropLast_concat, hws']
                      exact hall
                    have hle : ∀ w ∈ st.writes ++ [st.batch.length],
                        w ≤ BatchSize := by
                      intro w hw
                      rcases hfin w hw with rfl | rfl
                      · exact le_rfl
                      · exact hsb.le
                    cases err2 with
                    | some e => exact ⟨hdl, hle⟩
                    | none => exact ⟨hdl, hle⟩

/-- Symbolic one-step unfolding of `importFileStreaming` for a readable file
with a header row: instantiating it at a concrete file avoids re-deriving
the unfolding there. -/
theorem importFileStreaming_header_eval (o : SinkOracle) (fsys : FileSystem)
    (db : DB) (input : FileInput) (s : FileStream) (first : Row) (rest : List Row)
    (hf : fsys input.FilePath = some s) (hrec : s.records = first :: rest)
    (hh : input.HasHeader = true) :
    importFileStreaming o fsys db input
      = match streamLoop o input.TableName first rest
          (StreamState.mk (CreateTable db input.TableName first) [] 0 []) with
        | (st, some e) => (st.db, st.writes, Except.error e)
        | (st, none) => importFinish o input.TableName first s.readErr st := by
  simp only [importFileStreaming, hf, hrec, hh, if_true]

/-- `importFinish` on a clean EOF, fields spelled out. -/
theorem importFinish_none_mk (o : SinkOracle) (tbl : String) (hs : List String)
    (db : DB) (b : List Row) (rc : Nat) (w : List Nat) :
    importFinish o tbl hs none (StreamState.mk db b rc w)
      = if b = [] then (db, w, Except.ok (Result.mk tbl rc))
        else match InsertBatch o db tbl hs b with
          | (db2, some e, _) =>
              (db2, w ++ [b.length],
               Except.error ("failed to insert final batch: " ++ e))
          | (db2, none, _) =>
              (db2, w ++ [b.length], Except.ok (Result.mk tbl rc)) := rfl

/-- `importFinish` on a mid-file read error: the error is surfaced and the
trailing partial batch is not written. -/
theorem importFinish_some_mk (o : SinkOracle) (tbl : String) (hs : List String)
    (e : String) (db : DB) (b : List Row) (rc : Nat) (w : List Nat) :
    importFinish o tbl hs (some e) (StreamState.mk db b rc w)
      = (db, w, Except.error ("failed to read row: " ++ e)) := rfl

/-- The full streaming import of the 10,001-row file: one 10,000-row batch
write, then one single-row batch write, 10,001 rows stored. -/
theorem importBig_eval :
    importFileStreaming noFailOracle fsysBig [] inputBig
      = (dbBig, [10000, 1], Except.ok (Result.mk "data" 10001)) := by
  rw [importFileStreaming_header_eval noFailOracle fsysBig [] inputBig bigStream
    ["h"] (List.replicate 10001 vRow) rfl rfl rfl]
  rw [show inputBig.TableName = "data" from rfl,
      show bigStream.readErr = none from rfl,
      show CreateTable [] "data" ["h"] = dbT0 from rfl]
  rw [show List.replicate 10001 vRow = List.replicate 10000 vRow ++ [vRow] from by
    rw [← List.replicate_succ']]
  rw [streamLoop_append_none noFailOracle "data" ["h"]
    (List.replicate 10000 vRow) streamLoop_big10000 [vRow]]
  rw [streamLoop_noflush_mk noFailOracle "data" ["h"] [vRow] dbT1 [] 10000 [10000]
    (by
      simp only [List.length_nil, List.length_cons, BatchSize]
      omega)]
  show importFinish noFailOracle "data" ["h"] none
      (StreamState.mk dbT1 ([] ++ [vRow]) (10000 + [vRow].length) [10000])
    = (dbBig, [10000, 1], Except.ok (Result.mk "data" 10001))
  rw [importFinish_none_mk]
  rw [if_neg (show ¬(([] : List Row) ++ [vRow] = []) from by simp)]
  rw [insertBatch_noFail_success (["h"] : List String)
    (show dbLookup dbT1 "data"
      = some { cols := ["h"], rows := List.replicate 10000 vRow, indexes := [] }
      from rfl)
    (show ([] : List Row) ++ [vRow] ≠ [] from by simp)]
  have hrows : List.replicate 10000 vRow
      ++ ((([] : List Row) ++ [vRow]).map (padRow (["h"] : List String).length))
      = List.replicate 10001 vRow := by
    rw [List.nil_append]
    show List.replicate 10000 vRow ++ [vRow] = List.replicate 10001 vRow
    rw [← List.replicate_succ']
  rw [hrows]
  rfl

/-- C2: during a streaming file import the row buffer is flushed through
`InsertBatch` exactly when it reaches the fixed capacity `BatchSize` and
the trailing partial batch is flushed at end of file: every batch handed to
the sink is at most `BatchSize` rows and all but the last are exactly
`BatchSize` — the in-memory buffer never exceeds the batch capacity.  For
the 10,001-row file the importer performs exactly one 10,000-row batch
write followed by one single-row batch write, and stores 10,001 rows. -/
theorem streaming_batch_capacity :
    (∀ (o : SinkOracle) (fsys : FileSystem) (db : DB) (input : FileInput),
      (∀ w ∈ (importFileStreaming o fsys db input).2.1.dropLast, w = BatchSize) ∧
      (∀ w ∈ (importFileStreaming o fsys db input).2.1, w ≤ BatchSize)) ∧
    importFileStreaming noFailOracle fsysBig [] inputBig
      = (dbBig, [10000, 1], Except.ok (Result.mk "data" 10001)) ∧
    dbLookup dbBig "data"
      = some { cols := ["h"], rows := List.replicate 10001 vRow, indexes := [] } ∧
    (List.replicate 10001 vRow).length = 10001 :=
  ⟨importFileStreaming_writes_bound, importBig_eval, rfl, by
    rw [List.length_replicate]⟩

/-- The streaming import of the file whose reader fails mid-file after
10,000 rows: the full batch is committed, then the error surfaces. -/
theorem importTrunc_eval :
    importFileStreaming noFailOracle fsysTrunc [] inputTrunc
      = (dbT1, [10000],
         Except.error ("failed to read row: " ++ "unterminated quote")) := by
  rw [importFileStreaming_header_eval noFailOracle fsysTrunc [] inputTrunc
    truncStream ["h"] (List.replicate 10000 vRow) rfl rfl rfl]
  rw [show inputTrunc.TableName = "data" from rfl,
      show truncStream.readErr = some "unterminated quote" from rfl,
      show CreateTable [] "data" ["h"] = dbT0 from rfl]
  rw [streamLoop_big10000]
  show importFinish noFailOracle "data" ["h"] (some "unterminated quote")
      (StreamState.mk dbT1 [] 10000 [10000])
    = (dbT1, [10000], Except.error ("failed to read row: " ++ "unterminated quote"))
  rw [importFinish_some_mk]

/-- C3 counterexample: a file whose tokenization fails right after 10,000
well-formed rows.  The streaming importer returns the fatal error, yet the
10,000 rows of the already-committed full batch are durably visible in the
destination table — not zero rows, as the claim states. -/
theorem midfile_error_counterexample :
    (importFileStreaming noFailOracle fsysTrunc [] inputTrunc).2.2
      = Except.error ("failed to read row: " ++ "unterminated quote") ∧
    dbLookup (importFileStreaming noFailOracle fsysTrunc [] inputTrunc).1 "data"
      = some { cols := ["h"], rows := List.replicate 10000 vRow, indexes := [] } ∧
    (List.replicate 10000 vRow).length ≠ 0 := by
  refine ⟨?_, ?_, ?_⟩
  · rw [importTrunc_eval]
  · rw [importTrunc_eval]
    rfl
  · rw [List.length_replicate]
    norm_num

/-- C3 (amended): a mid-file tokenization error is fatal for the file — the
streaming importer returns the read error and never writes the in-flight
partial batch, so everything durably visible from that file consists of the
full `BatchSize` batches committed before the error (each write performed
was exactly `BatchSize` rows); and in the non-streaming path a parsed file
carrying an error produces no database write at all. -/
theorem midfile_error_fatal :
    (∀ (fsys : FileSystem) (db : DB) (i : FileInput) (s : FileStream)
       (first : Row) (rest : List Row) (e : String),
      fsys i.FilePath = some s → s.records = first :: rest →
      s.readErr = some e →
      (importFileStreaming noFailOracle fsys db i).2.2
        = Except.error ("failed to read row: " ++ e) ∧
      ∀ w ∈ (importFileStreaming noFailOracle fsys db i).2.1, w = BatchSize) ∧
    (∀ (o : SinkOracle) (db : DB) (p : ParsedFile) (e : String),
      p.Error = some e →
      (WriteToDatabase o db p).1 = db ∧
      (WriteToDatabase o db p).2 = Except.error e) := by
  constructor
  · intro fsys db i s first rest e hf hrec hre
    simp only [importFileStreaming, hf, hrec]
    obtain ⟨hsl2, _, _⟩ := streamLoop_noerr i.TableName
      (if i.HasHeader then first else mkColNames first.length) rest
      (StreamState.mk (CreateTable db i.TableName
        (if i.HasHeader then first else mkColNames first.length)) [] 0 [])
      ⟨_, dbLookup_dbSet_self db i.TableName _⟩
    obtain ⟨⟨ws, hws, hall⟩, _⟩ := streamLoop_writes noFailOracle i.TableName
      (if i.HasHeader then first else mkColNames first.length) rest
      (StreamState.mk (CreateTable db i.TableName
        (if i.HasHeader then first else mkColNames first.length)) [] 0 [])
      (by show (0 : Nat) < BatchSize; decide)
    rcases hSL : streamLoop noFailOracle i.TableName
        (if i.HasHeader then first else mkColNames first.length) rest
        (StreamState.mk (CreateTable db i.TableName
          (if i.HasHeader then first else mkColNames first.length)) [] 0 [])
      with ⟨st, err⟩
    rw [hSL] at hsl2 hws
    cases err with
    | some e2 => exact absurd hsl2 (by simp)
    | none =>
        rw [hre]
        have hws' : st.writes = ws :=
          (show st.writes = [] ++ ws from hws).trans (List.nil_append ws)
        constructor
        · rfl
        · show ∀ w ∈ (importFinish noFailOracle i.TableName
              (if i.HasHeader then first else mkColNames first.length)
              (some e) st).2.1, w = BatchSize
          intro w hw
          exact hall w (hws' ▸ hw)
  · intro o db p e h
    constructor
    · unfold WriteToDatabase
      rw [h]
    · unfold WriteToDatabase
      rw [h]

/-- Closed witness for the amended C3 at the truncated 10,000-row file and
a concrete failed parse. -/
theorem midfile_error_fatal_witness :
    (fsysTrunc inputTrunc.FilePath = some truncStream ∧
     truncStream.records = ["h"] :: List.replicate 10000 vRow ∧
     truncStream.readErr = some "unterminated quote") ∧
    (importFileStreaming noFailOracle fsysTrunc [] inputTrunc).2.2
      = Except.error ("failed to read row: " ++ "unterminated quote") ∧
    (WriteToDatabase noFailOracle []
      { FilePath := "f", TableName := "t", Headers := [], Rows := [],
        Error := some "boom" }).2 = Except.error "boom" :=
  ⟨⟨rfl, rfl, rfl⟩,
   (midfile_error_fatal.1 fsysTrunc [] inputTrunc truncStream ["h"]
      (List.replicate 10000 vRow) "unterminated quote" rfl rfl rfl).1,
   (midfile_error_fatal.2 noFailOracle []
      { FilePath := "f", TableName := "t", Headers := [], Rows := [],
        Error := some "boom" } "boom" rfl).2⟩

/-! ### Ragged rows: the configured reader rejects width mismatches

The repository constructs its csv readers (importer.go 57–60, part_007
252–255) setting only `Comma`, `LazyQuotes` and `TrimLeadingSpace`;
`FieldsPerRecord` is never assigned, so Go's default `0` applies: the first
record fixes the expected field count and `Read` returns `ErrFieldCount`
("wrong number of fields") for any later record whose width differs.  Both
file ingestion paths treat any non-EOF read error as fatal for the file. -/

/-- The stream the configured `encoding/csv` reader yields, given the
records as tokenized: records are passed through until the first one whose
width differs from the first record's, which surfaces as a read error. -/
def csvRead (rawRecords : List Row) : FileStream :=
  match rawRecords with
  | [] => { records := [], readErr := none }
  | first :: rest =>
      if rest.all (fun r => r.length = first.length) then
        { records := first :: rest, readErr := none }
      else
        { records := first :: rest.takeWhile (fun r => r.length = first.length),
          readErr := some "wrong number of fields" }

/-- A file whose header `a,b` is followed by the short row `1`. -/
def raggedStream : FileStream := csvRead [["a", "b"], ["1"]]

def fsysRagged : FileSystem := fun p =>
  if p = "ragged.csv" then some raggedStream else none

def inputRagged : FileInput :=
  { FilePath := "ragged.csv", TableName := "t", Delimiter := ',',
    HasHeader := true }

/-- C4 counterexample: a file with header `a,b` and the single data row `1`
(width 1, differing from the first record's width 2).  The claim says this
row is stored right-padded as two fields; instead the configured reader
ends the stream with the field-count error, the streaming importer returns
it as fatal and stores zero rows, and the non-streaming path writes nothing
at all — the ragged row is never stored, padded or otherwise. -/
theorem ragged_row_rejected_counterexample :
    csvRead [["a", "b"], ["1"]]
      = { records := [["a", "b"]], readErr := some "wrong number of fields" } ∧
    importFileStreaming noFailOracle fsysRagged [] inputRagged
      = ([("t", { cols := ["a", "b"], rows := [], indexes := [] })], [],
         Except.error ("failed to read row: " ++ "wrong number of fields")) ∧
    (WriteToDatabase noFailOracle [] (ParseFile fsysRagged inputRagged)).1
      = [] :=
  ⟨rfl, rfl, rfl⟩

/-- C4 (amended): coercion to header width happens at the sink only — for
every header list and row handed to `InsertBatch`, the stored row has
exactly header width, keeps its values below its own width, reads back the
empty string in missing trailing fields, and drops extra fields, for every
row of the batch whatever its width; but through the file import path a
row whose width differs from the first record's never reaches storage:
every record the configured reader yields has the first record's width,
and the reader ends cleanly iff no record's width differs. -/
theorem row_padding_at_sink_only :
    (∀ (H : List String) (R : Row),
      (padRow H.length R).length = H.length ∧
      (∀ i, i < H.length → i < R.length → (padRow H.length R)[i]? = R[i]?) ∧
      (∀ i, R.length ≤ i → i < H.length → (padRow H.length R)[i]? = some "") ∧
      (∀ o db tbl batch,
        (InsertBatch o db tbl H batch).2.1 = none → batch ≠ [] →
        ∃ t, dbLookup db tbl = some t ∧
          (InsertBatch o db tbl H batch).1 =
            dbSet db tbl { t with rows := t.rows ++ batch.map (padRow H.length) })) ∧
    (∀ (first : Row) (rest : List Row),
      (∀ r ∈ (csvRead (first :: rest)).records, r.length = first.length) ∧
      ((csvRead (first :: rest)).readErr = none ↔
        ∀ r ∈ rest, r.length = first.length)) := by
  constructor
  · intro H R
    refine ⟨by simp [padRow], ?_, ?_, ?_⟩
    · intro i hiH hiR
      rw [padRow, List.getElem?_map, List.getElem?_range hiH]
      simp [List.getD_eq_getElem?_getD, List.getElem?_eq_getElem hiR]
    · intro i hRi hiH
      rw [padRow, List.getElem?_map, List.getElem?_range hiH]
      simp [List.getD_eq_getElem?_getD, List.getElem?_eq_none hRi]
    · intro o db tbl batch hn hb
      exact (insertBatch_spec o db tbl H batch).2.2.2 hn hb
  · intro first rest
    simp only [csvRead]
    by_cases hall : rest.all (fun r => r.length = first.length) = true
    · rw [if_pos hall]
      constructor
      · intro r hr
        rcases List.mem_cons.mp hr with rfl | hr
        · rfl
        · simpa using List.all_eq_true.mp hall r hr
      · exact ⟨fun _ r hr => by simpa using List.all_eq_true.mp hall r hr,
               fun _ => rfl⟩
    · rw [if_neg hall]
      constructor
      · intro r hr
        rcases List.mem_cons.mp hr with rfl | hr
        · rfl
        · simpa using List.mem_takeWhile_imp hr
      · constructor
        · intro hnone
          exact Option.noConfusion hnone
        · intro hforall
          exact absurd (List.all_eq_true.mpr
            (fun r hr => by simpa using hforall r hr)) hall

/-- Closed witness for the amended C4: the short row `1` under header
`a,b` pads to `("1", "")` at the sink, while the reader refuses to yield
it from the file. -/
theorem row_padding_at_sink_only_witness :
    (1 < (["a", "b"] : List String).length ∧ (["1"] : Row).length ≤ 1) ∧
    (padRow (["a", "b"] : List String).length ["1"])[1]? = some "" ∧
    (csvRead [["a", "b"], ["1"]]).readErr ≠ none := by
  refine ⟨⟨by decide, by decide⟩, ?_, ?_⟩
  · exact (row_padding_at_sink_only.1 ["a", "b"] ["1"]).2.2.1 1 (by decide)
      (by decide)
  · intro hnone
    exact absurd ((row_padding_at_sink_only.2 ["a", "b"] [["1"]]).2.mp hnone
      ["1"] (by decide)) (by decide)
